import Mathlib

/-!
Shallow embedding of the connection-manager core (`src/mcon/manager.c`) of the
mongo-php-driver repository.  Pure data is embedded as Lean structures; the
wire-protocol collaborators (`mongo_connection_create`, `getnonce`,
`authenticate`, `ismaster`, the candidate-selection functions from
`collection.c`) are not part of `src/` and are therefore modelled as oracle
fields of an environment record `Env`; their outcomes are inputs to the
embedded control flow, which is translated line by line from `manager.c`.
`mongo_connection_ping` is modelled from the spec (§4.B) because its
interval-respecting behaviour decides one of the claims.

Ghost instrumentation: the results of the embedded functions carry, besides
the fields the C code computes, a trace of collaborator calls (`events`), the
list of connections passed to `mongo_connection_destroy` (`destroyed`), the
seed-failure message string built through `mcon_str` (`seedErrors`), and the
arguments actually handed to `mongo_find_candidate_servers`
(`authHashUsed`, `prefUsed`).  These mirror observable effects of the C code
and do not influence the control flow.
-/

namespace MconManager

/-- A live connection (`mongo_connection`): its identity hash and the
timestamp of its last successful wire ping.  Other fields of the C struct
(ping_ms, tags, connection type, max_bson_size) play no role in the claims
under study and are omitted. -/
structure Connection where
  hash : String
  lastPing : Nat
  deriving DecidableEq, Repr

/-- A server definition (`mongo_server_def`): host, port and optional
credentials. -/
structure ServerDef where
  host : String
  port : Nat
  db : Option String
  username : Option String
  password : Option String
  deriving DecidableEq, Repr

/-- A registry entry (`mongo_con_manager_item`): the stored hash key and the
connection; `next` pointers become list structure. -/
structure Item where
  hash : String
  connection : Connection
  deriving DecidableEq, Repr

/-- The connection manager (`mongo_con_manager`): the singly linked registry
(in registration order, head first) and the ping interval. -/
structure Manager where
  connections : List Item
  pingInterval : Nat
  deriving DecidableEq, Repr

/-- Read-preference types (`MONGO_RP_*`). -/
inductive RPType where
  | primary
  | primaryPreferred
  | secondary
  | secondaryPreferred
  | nearest
  deriving DecidableEq, Repr

/-- A read preference (`mongo_read_preference`): type plus tag sets. -/
structure ReadPreference where
  type : RPType
  tagsets : List (List (String × String))
  deriving DecidableEq, Repr

/-- Deployment type (`MONGO_CON_TYPE_*`); `other` stands for any value that
falls into the `default` branch of `mongo_get_read_write_connection`. -/
inductive ConType where
  | standalone
  | replset
  | multiple
  | other
  deriving DecidableEq, Repr

/-- The caller's server list (`mongo_servers`): ordered seed definitions,
deployment type, expected replica-set name and read preference. -/
structure Servers where
  server : List ServerDef
  conType : ConType
  replSetName : Option String
  readPref : ReadPreference
  deriving DecidableEq, Repr

/-- Connection flags: `MONGO_CON_FLAG_WRITE` and
`MONGO_CON_FLAG_DONT_CONNECT` as booleans. -/
structure Flags where
  write : Bool
  dontConnect : Bool
  deriving DecidableEq, Repr

/-- Collaborator calls issued by `manager.c`, in program order (ghost
trace). -/
inductive Event where
  | create
  | getnonce
  | auth
  | ping
  | register
  | destroy
  deriving DecidableEq, Repr

/-- Result of `mongo_connection_ismaster` (codes 0/1/2/3 of the C API). -/
inductive IsmRes where
  | error (msg : String)
  | ok (hosts : List String)
  | skipped
  | removeSeed (hosts : List String)
  deriving DecidableEq, Repr

/-- Failure modes of the embedded acquisition functions that have no C
return value: an out-of-bounds read of `servers->server[0]`, or exhaustion
of the fuel that bounds the discovery loop. -/
inductive Fail where
  | oob
  | fuelOut
  deriving DecidableEq, Repr

/-- The environment: outcomes of the collaborators that live outside
`src/mcon/manager.c` (connections.c, server.c, collection.c,
read_preference.c), plus the current wall-clock time.  Each oracle is keyed
by the data the C call passes: hashes for per-connection operations, server
definitions for creation. -/
structure Env where
  createHash : ServerDef → String
  hashedPassword : String → String → String
  create : ServerDef → Except String Connection
  pingProbe : String → Except String Unit
  getnonce : String → Except String String
  auth : String → String → String → String → String → Except String Unit
  ismaster : String → IsmRes
  findCandidates : Manager → ReadPreference → Option String → Option (List Connection)
  sortServers : List Connection → ReadPreference → List Connection
  selectNearest : List Connection → ReadPreference → List Connection
  pickServer : List Connection → ReadPreference → Option Connection
  now : Nat

/-- `mongo_manager_connection_find_by_hash` (manager.c:332): linear scan of
the registry, first entry whose stored hash equals the argument. -/
def mongo_manager_connection_find_by_hash (m : Manager) (hash : String) : Option Connection :=
  match m.connections.find? (fun it => decide (it.hash = hash)) with
  | some it => some it.connection
  | none => none

/-- `mongo_manager_connection_register` (manager.c:370): append an entry for
the connection (keyed by `con->hash`) at the tail of the registry. -/
def mongo_manager_connection_register (m : Manager) (con : Connection) : Manager :=
  { m with connections := m.connections ++ [⟨con.hash, con⟩] }

/-- Unlink the first entry whose hash matches; `none` when no entry
matches. -/
def deregisterList : List Item → String → Option (List Item)
  | [], _ => none
  | it :: rest, h =>
    if it.hash = h then some rest
    else (deregisterList rest h).map (fun l => it :: l)

/-- `mongo_manager_connection_deregister` (manager.c:395): locate the first
entry matching `con->hash`, unlink it, destroy the connection.  Returns the
new manager, whether an entry was removed, and the destroyed connections
(ghost). -/
def mongo_manager_connection_deregister (m : Manager) (con : Connection) :
    Manager × Bool × List Connection :=
  match deregisterList m.connections con.hash with
  | some l => ({ m with connections := l }, true, [con])
  | none => (m, false, [])

/-- Replace the connection stored in the first entry whose hash matches;
models the in-place mutation of the connection object the registry points
to. -/
def updateConnection : List Item → String → Connection → List Item
  | [], _, _ => []
  | it :: rest, h, c =>
    if it.hash = h then ⟨it.hash, c⟩ :: rest
    else it :: updateConnection rest h c

/-- Modelled from the spec: `mongo_connection_ping` (§4.B); connections.c is
absent from `src/`.  "if last ping is within `ping_interval`, return success
immediately without a round trip; otherwise issue the probe" and record the
new last-ping time on success. -/
def mongo_connection_ping (env : Env) (m : Manager) (con : Connection) :
    Except String Connection :=
  if env.now - con.lastPing < m.pingInterval then Except.ok con
  else
    match env.pingProbe con.hash with
    | Except.ok _ => Except.ok { con with lastPing := env.now }
    | Except.error e => Except.error e

/-- `authenticate_connection` (manager.c:16): getnonce, then authenticate
with the nonce.  Returns the outcome and the collaborator calls made. -/
def authenticate_connection (env : Env) (con : Connection) (db user pwd : String) :
    Except String Unit × List Event :=
  match env.getnonce con.hash with
  | Except.error e => (Except.error e, [Event.getnonce])
  | Except.ok nonce =>
    match env.auth con.hash db user pwd nonce with
    | Except.error e => (Except.error e, [Event.getnonce, Event.auth])
    | Except.ok _ => (Except.ok (), [Event.getnonce, Event.auth])

/-- The conditional authentication block of `mongo_get_connection_single`
(manager.c:45-52): authentication runs only when db, username and password
are all present. -/
def authStepFor (env : Env) (server : ServerDef) (c : Connection) :
    Except String Unit × List Event :=
  match server.db, server.username, server.password with
  | some db, some user, some pwd => authenticate_connection env c db user pwd
  | _, _, _ => (Except.ok (), [])

/-- Result of `mongo_get_connection_single`: the updated manager, the
returned connection, the error out-parameter, and ghost trace fields. -/
structure SingleResult where
  manager : Manager
  con : Option Connection
  err : Option String
  events : List Event
  destroyed : List Connection
  deriving Repr

/-- `mongo_get_connection_single` (manager.c:32), translated branch by
branch: compute the hash; look it up; if absent and `DONT_CONNECT` is clear,
create, authenticate when db+username+password are all present, ping,
register — destroying the fresh connection on any failure; if present and
`DONT_CONNECT` is clear, ping it, deregistering on failure; with
`DONT_CONNECT` set, return the lookup result as is. -/
def mongo_get_connection_single (env : Env) (m : Manager) (server : ServerDef)
    (flags : Flags) : SingleResult :=
  let hash := env.createHash server
  match mongo_manager_connection_find_by_hash m hash with
  | none =>
    if flags.dontConnect then
      { manager := m, con := none, err := none, events := [], destroyed := [] }
    else
      match env.create server with
      | Except.error e =>
        { manager := m, con := none, err := some e,
          events := [Event.create], destroyed := [] }
      | Except.ok c0 =>
        let c : Connection := { c0 with hash := hash }
        match authStepFor env server c with
        | (Except.error e, evs) =>
          { manager := m, con := none, err := some e,
            events := Event.create :: evs ++ [Event.destroy], destroyed := [c] }
        | (Except.ok _, evs) =>
          match mongo_connection_ping env m c with
          | Except.error e =>
            { manager := m, con := none, err := some e,
              events := Event.create :: evs ++ [Event.ping, Event.destroy],
              destroyed := [c] }
          | Except.ok c2 =>
            { manager := mongo_manager_connection_register m c2, con := some c2,
              err := none,
              events := Event.create :: evs ++ [Event.ping, Event.register],
              destroyed := [] }
  | some c =>
    if flags.dontConnect then
      { manager := m, con := some c, err := none, events := [], destroyed := [] }
    else
      match mongo_connection_ping env m c with
      | Except.error e =>
        let d := mongo_manager_connection_deregister m c
        { manager := d.1, con := none, err := some e,
          events := [Event.ping, Event.destroy], destroyed := d.2.2 }
      | Except.ok c2 =>
        { manager := { m with connections := updateConnection m.connections hash c2 },
          con := some c2, err := none, events := [Event.ping], destroyed := [] }

/-- Decimal parse of a leading digit run, as `atoi` does on the characters
after the colon. -/
def atoiLoop : List Char → Nat → Nat
  | [], acc => acc
  | ch :: rest, acc =>
    if ch.isDigit then atoiLoop rest (acc * 10 + (ch.toNat - 48)) else acc

/-- The host part of a `host:port` string: `strndup(s, strchr(s, ':') - s)`.
The C code assumes a colon is present; without one this takes the whole
string. -/
def hostPart (s : String) : String :=
  String.mk (s.toList.takeWhile (fun ch => ch ≠ ':'))

/-- The port part of a `host:port` string: `atoi(strchr(s, ':') + 1)`. -/
def portPart (s : String) : Nat :=
  atoiLoop ((s.toList.dropWhile (fun ch => ch ≠ ':')).drop 1) 0

/-- The temporary server definition discovery builds for a reported
`host:port` string (manager.c:124-129): db, username and password are
inherited from the seed that reported it; host and port are parsed from the
string. -/
def inheritDef (seed : ServerDef) (hostport : String) : ServerDef :=
  { host := hostPart hostport
    port := portPart hostport
    db := seed.db
    username := seed.username
    password := seed.password }

/-- The inner `for (j = 0; j < nr_hosts; j++)` loop of
`mongo_discover_topology` (manager.c:118-155): for each reported host build
the inherited definition; if its hash is already registered, discard it;
otherwise attempt a single acquire with the WRITE flag and, on success,
append the definition to the server list. -/
def processHosts (env : Env) : Manager → List ServerDef → ServerDef → List String →
    Manager × List ServerDef
  | m, s, _, [] => (m, s)
  | m, s, seed, hp :: rest =>
    let d := inheritDef seed hp
    let tmpHash := env.createHash d
    match mongo_manager_connection_find_by_hash m tmpHash with
    | some _ => processHosts env m s seed rest
    | none =>
      let r := mongo_get_connection_single env m d ⟨true, false⟩
      match r.con with
      | some _ => processHosts env r.manager (s ++ [d]) seed rest
      | none => processHosts env r.manager s seed rest

/-- One `switch (res)` dispatch of `mongo_discover_topology`
(manager.c:102-163).  Code 0 deregisters the probed connection; code 3
deregisters it and then falls through into the code-1 host expansion; code 2
does nothing. -/
def discoverBody (env : Env) (m : Manager) (s : List ServerDef) (seed : ServerDef)
    (con : Connection) (res : IsmRes) : Manager × List ServerDef :=
  match res with
  | IsmRes.error _ => ((mongo_manager_connection_deregister m con).1, s)
  | IsmRes.skipped => (m, s)
  | IsmRes.ok hosts => processHosts env m s seed hosts
  | IsmRes.removeSeed hosts =>
    let m1 := (mongo_manager_connection_deregister m con).1
    processHosts env m1 s seed hosts

/-- The outer `for (i = 0; i < servers->count; i++)` loop of
`mongo_discover_topology` (manager.c:90-166).  The bound `servers->count` is
re-read each iteration, so entries appended by `discoverBody` are probed by
the same loop.  The C loop has no step bound; `fuel` counts loop iterations
so that the embedding is total, and `none` marks fuel exhaustion. -/
def discoverLoop (env : Env) : Nat → Manager → List ServerDef → Nat →
    Option (Manager × List ServerDef)
  | 0, _, _, _ => none
  | fuel + 1, m, s, i =>
    if h : i < s.length then
      match mongo_manager_connection_find_by_hash m (env.createHash (s.get ⟨i, h⟩)) with
      | none => discoverLoop env fuel m s (i + 1)
      | some con =>
        discoverLoop env fuel
          (discoverBody env m s (s.get ⟨i, h⟩) con
            (env.ismaster (env.createHash (s.get ⟨i, h⟩)))).1
          (discoverBody env m s (s.get ⟨i, h⟩) con
            (env.ismaster (env.createHash (s.get ⟨i, h⟩)))).2
          (i + 1)
    else some (m, s)

/-- `mongo_discover_topology` (manager.c:78): run the index-based loop from
`i = 0`. -/
def mongo_discover_topology (env : Env) (fuel : Nat) (m : Manager)
    (s : List ServerDef) : Option (Manager × List ServerDef) :=
  discoverLoop env fuel m s 0

/-- Result of the two acquisition strategies and of the public entry point:
the updated manager and server list, the returned connection and the error
out-parameter, plus ghost fields: the `mcon_str` seed-failure composite
(`seedErrors`, multiple path only), and the auth hash and read preference
actually handed to `mongo_find_candidate_servers` (`none` when selection was
never reached). -/
structure AcqResult where
  manager : Manager
  servers : List ServerDef
  con : Option Connection
  err : Option String
  seedErrors : String
  authHashUsed : Option (Option String)
  prefUsed : Option ReadPreference
  deriving Repr

/-- The seed loop of `mongo_get_read_write_connection_replicaset`
(manager.c:183-192): acquire each seed in order, remembering whether any
acquire succeeded; failures are only logged. -/
def seedLoopRS (env : Env) (flags : Flags) : Manager → Bool → List ServerDef →
    Manager × Bool
  | m, found, [] => (m, found)
  | m, found, d :: rest =>
    let r := mongo_get_connection_single env m d flags
    seedLoopRS env flags r.manager (found || r.con.isSome) rest

/-- The auth-hash computation shared by both strategies (manager.c:201-203
and 270-272): derived from the username and password of `servers->server[0]`
alone; absent when either is missing. -/
def authHashOf (env : Env) (s0 : ServerDef) : Option String :=
  match s0.username, s0.password with
  | some u, some p => some (env.hashedPassword u p)
  | _, _ => none

/-- `mongo_get_read_write_connection_replicaset` (manager.c:172): seed loop,
early `NULL` return when `DONT_CONNECT` is set and nothing connected,
topology discovery, auth hash from `servers->server[0]` (an out-of-bounds
read when the list is empty, reported as `Fail.oob`), candidate selection
with the read preference forced to Primary for a WRITE intent, then
sort/nearest/pick with the caller's original preference.  The only error
message this function ever stores is "No candidate servers found". -/
def mongo_get_read_write_connection_replicaset (env : Env) (fuel : Nat) (m : Manager)
    (servers : Servers) (flags : Flags) : Except Fail AcqResult :=
  let loop := seedLoopRS env flags m false servers.server
  if !loop.2 && flags.dontConnect then
    Except.ok
      { manager := loop.1, servers := servers.server, con := none, err := none,
        seedErrors := "", authHashUsed := none, prefUsed := none }
  else
    match mongo_discover_topology env fuel loop.1 servers.server with
    | none => Except.error Fail.fuelOut
    | some (m1, slist) =>
      match slist with
      | [] => Except.error Fail.oob
      | s0 :: _ =>
        let authHash := authHashOf env s0
        let rp : ReadPreference :=
          if flags.write then { servers.readPref with type := RPType.primary }
          else servers.readPref
        match env.findCandidates m1 rp authHash with
        | none =>
          Except.ok
            { manager := m1, servers := slist, con := none,
              err := some "No candidate servers found", seedErrors := "",
              authHashUsed := some authHash, prefUsed := some rp }
        | some coll =>
          if coll.length = 0 then
            Except.ok
              { manager := m1, servers := slist, con := none,
                err := some "No candidate servers found", seedErrors := "",
                authHashUsed := some authHash, prefUsed := some rp }
          else
            let sorted := env.sortServers coll servers.readPref
            let near := env.selectNearest sorted servers.readPref
            Except.ok
              { manager := m1, servers := slist,
                con := env.pickServer near servers.readPref, err := none,
                seedErrors := "", authHashUsed := some authHash,
                prefUsed := some rp }

/-- The seed loop of `mongo_get_connection_multiple` (manager.c:245-262):
acquire each seed; on failure (with `DONT_CONNECT` clear) append
"Failed to connect to: host:port: error" to the `mcon_str` composite,
separated by "; ". -/
def seedLoopMulti (env : Env) (flags : Flags) : Manager → Bool → String →
    List ServerDef → Manager × Bool × String
  | m, found, msgs, [] => (m, found, msgs)
  | m, found, msgs, d :: rest =>
    let r := mongo_get_connection_single env m d flags
    match r.con with
    | some _ => seedLoopMulti env flags r.manager true msgs rest
    | none =>
      if flags.dontConnect then seedLoopMulti env flags r.manager found msgs rest
      else
        let part := "Failed to connect to: " ++ d.host ++ ":" ++ toString d.port
          ++ ": " ++ r.err.getD ""
        let msgs2 := if msgs.length ≠ 0 then msgs ++ "; " ++ part else part
        seedLoopMulti env flags r.manager found msgs2 rest

/-- `mongo_get_connection_multiple` (manager.c:230): seed loop with message
accumulation, early `NULL` return when `DONT_CONNECT` is set and nothing
connected, auth hash from `servers->server[0]` (out-of-bounds when the seed
list is empty), candidate selection with the read preference forced to
Nearest, and on an empty selection the composite seed-failure message when
one was recorded, else "No candidate servers found". -/
def mongo_get_connection_multiple (env : Env) (m : Manager) (servers : Servers)
    (flags : Flags) : Except Fail AcqResult :=
  let loop := seedLoopMulti env flags m false "" servers.server
  if !loop.2.1 && flags.dontConnect then
    Except.ok
      { manager := loop.1, servers := servers.server, con := none, err := none,
        seedErrors := loop.2.2, authHashUsed := none, prefUsed := none }
  else
    match servers.server with
    | [] => Except.error Fail.oob
    | s0 :: _ =>
      let authHash := authHashOf env s0
      let rp : ReadPreference := { servers.readPref with type := RPType.nearest }
      match env.findCandidates loop.1 rp authHash with
      | none =>
        Except.ok
          { manager := loop.1, servers := servers.server, con := none,
            err := some (if loop.2.2.length ≠ 0 then loop.2.2
              else "No candidate servers found"),
            seedErrors := loop.2.2, authHashUsed := some authHash,
            prefUsed := some rp }
      | some coll =>
        if coll.length = 0 then
          Except.ok
            { manager := loop.1, servers := servers.server, con := none,
              err := some (if loop.2.2.length ≠ 0 then loop.2.2
                else "No candidate servers found"),
              seedErrors := loop.2.2, authHashUsed := some authHash,
              prefUsed := some rp }
        else
          let sorted := env.sortServers coll servers.readPref
          let near := env.selectNearest sorted servers.readPref
          Except.ok
            { manager := loop.1, servers := servers.server,
              con := env.pickServer near servers.readPref, err := none,
              seedErrors := loop.2.2, authHashUsed := some authHash,
              prefUsed := some rp }

/-- `mongo_get_read_write_connection` (manager.c:302): dispatch on the
deployment type; standalone and multiple share `mongo_get_connection_multiple`,
replica sets use the replica-set strategy, anything else stores the
"Unknown connection type requested" message. -/
def mongo_get_read_write_connection (env : Env) (fuel : Nat) (m : Manager)
    (servers : Servers) (flags : Flags) : Except Fail AcqResult :=
  match servers.conType with
  | ConType.standalone => mongo_get_connection_multiple env m servers flags
  | ConType.replset =>
    mongo_get_read_write_connection_replicaset env fuel m servers flags
  | ConType.multiple => mongo_get_connection_multiple env m servers flags
  | ConType.other =>
    Except.ok
      { manager := m, servers := servers.server, con := none,
        err := some "mongo_get_read_write_connection: Unknown connection type requested",
        seedErrors := "", authHashUsed := none, prefUsed := none }

/-- `destroy_manager_item` (manager.c:361): recurse over `item->next` first,
then destroy this item's connection.  The returned list is the destruction
sequence. -/
def destroy_manager_item : List Item → List Connection
  | [] => []
  | it :: rest => destroy_manager_item rest ++ [it.connection]

/-- `mongo_deinit` (manager.c:480): destroy the registry chain when it is
non-empty.  The returned list is the sequence of connections passed to
`mongo_connection_destroy`, in order. -/
def mongo_deinit (m : Manager) : List Connection :=
  match m.connections with
  | [] => []
  | l => destroy_manager_item l

/-- `true` iff the registry holds an entry keyed by `h`. -/
def registryHas (m : Manager) (h : String) : Bool :=
  (m.connections.find? (fun it => decide (it.hash = h))).isSome

/-- A well-formed manager: every registry entry's stored key equals the hash
of the connection it holds (maintained by `register`, which keys the entry
by `con->hash`). -/
def ManagerWf (m : Manager) : Prop :=
  ∀ it ∈ m.connections, it.hash = it.connection.hash

/-- The discovery loop, started at index 0, terminates for some fuel. -/
def discoverTerminates (env : Env) (m : Manager) (s : List ServerDef) : Prop :=
  ∃ fuel r, discoverLoop env fuel m s 0 = some r

/-! ## General lemmas about the registry and the connection primitives -/

theorem destroy_seq_reverse (l : List Item) :
    destroy_manager_item l = (l.map (fun it => it.connection)).reverse := by
  induction l with
  | nil => rfl
  | cons a t ih => simp [destroy_manager_item, ih]

theorem registryHas_iff (m : Manager) (h : String) :
    registryHas m h = true ↔ h ∈ m.connections.map (fun it => it.hash) := by
  unfold registryHas
  rw [List.find?_isSome]
  simp [eq_comm]

theorem updateConnection_keys (l : List Item) (h : String) (c : Connection) :
    (updateConnection l h c).map (fun it => it.hash) = l.map (fun it => it.hash) := by
  induction l with
  | nil => rfl
  | cons a t ih =>
    unfold updateConnection
    split
    · simp
    · simp [ih]

theorem find_by_hash_eq_some (m : Manager) (h : String) (c : Connection)
    (hf : mongo_manager_connection_find_by_hash m h = some c) :
    ∃ it ∈ m.connections, it.hash = h ∧ it.connection = c := by
  unfold mongo_manager_connection_find_by_hash at hf
  cases hfind : m.connections.find? (fun it => decide (it.hash = h)) with
  | none => rw [hfind] at hf; cases hf
  | some it =>
    rw [hfind] at hf
    cases hf
    have hmem := List.mem_of_find?_eq_some hfind
    have hp := List.find?_some hfind
    simp only [decide_eq_true_eq] at hp
    exact ⟨it, hmem, hp, rfl⟩

theorem ping_ok_fresh (env : Env) (m : Manager) (c c2 : Connection)
    (hpi : 0 < m.pingInterval)
    (h : mongo_connection_ping env m c = Except.ok c2) :
    env.now - c2.lastPing < m.pingInterval ∧ c2.hash = c.hash := by
  unfold mongo_connection_ping at h
  split at h
  · cases h
    exact ⟨by assumption, rfl⟩
  · cases hp : env.pingProbe c.hash with
    | ok u => rw [hp] at h; cases h; refine ⟨?_, rfl⟩; simpa using hpi
    | error e => rw [hp] at h; cases h

theorem registryHas_register (m : Manager) (c : Connection) :
    registryHas (mongo_manager_connection_register m c) c.hash = true := by
  rw [registryHas_iff]
  simp [mongo_manager_connection_register]

/-! ## Concrete environments and states for witnesses and counterexamples -/

/-- A base concrete environment; each witness or counterexample below
overrides the fields it needs. -/
def env0 : Env where
  createHash := fun d => d.host ++ ":" ++ toString d.port
  hashedPassword := fun u p => u ++ "/" ++ p
  create := fun _ => Except.error "connection refused"
  pingProbe := fun _ => Except.ok ()
  getnonce := fun _ => Except.error "getnonce failed"
  auth := fun _ _ _ _ _ => Except.ok ()
  ismaster := fun _ => IsmRes.skipped
  findCandidates := fun _ _ _ => none
  sortServers := fun l _ => l
  selectNearest := fun l _ => l
  pickServer := fun l _ => l.head?
  now := 100

/-- A credential-free server definition for `localhost:1`. -/
def dLocal : ServerDef := ⟨"localhost", 1, none, none, none⟩

/-! ## C1 -/

/-- Counterexample to C1: with `DONT_CONNECT` set and a stale registered
connection (last ping at time 0, now 100, ping interval 10),
`mongo_get_connection_single` returns the connection without any ping, so
its last-ping age (100) is not below the ping interval (10). -/
theorem claim_C1_counterexample :
    (mongo_get_connection_single { env0 with create := fun _ => Except.ok ⟨"", 0⟩ }
        ⟨[⟨"localhost:1", ⟨"localhost:1", 0⟩⟩], 10⟩ dLocal ⟨false, true⟩).con.map
      (fun c => decide (100 - c.lastPing < 10)) = some false := by
  decide

/-- C1 (amended): every connection returned by `mongo_get_connection_single`
on a well-formed manager has its hash in the resulting registry; when
`DONT_CONNECT` is clear (and the ping interval is positive) it has moreover
passed a ping within the current acquisition, so its last-ping age is below
the ping interval.  (With `DONT_CONNECT` set, a registered connection is
returned without a ping — see the counterexample.) -/
theorem claim_C1_theorem (env : Env) (m : Manager) (server : ServerDef) (flags : Flags)
    (hwf : ManagerWf m) (hpi : 0 < m.pingInterval) (c : Connection)
    (hc : (mongo_get_connection_single env m server flags).con = some c) :
    registryHas (mongo_get_connection_single env m server flags).manager c.hash = true ∧
      (flags.dontConnect = false → env.now - c.lastPing < m.pingInterval) := by
  cases hf : mongo_manager_connection_find_by_hash m (env.createHash server) with
  | none =>
    cases hdc : flags.dontConnect with
    | true => simp [mongo_get_connection_single, hf, hdc] at hc
    | false =>
      cases hcr : env.create server with
      | error e => simp [mongo_get_connection_single, hf, hdc, hcr] at hc
      | ok c0 =>
        cases hauth : authStepFor env server { c0 with hash := env.createHash server } with
        | mk res evs =>
          cases res with
          | error e => simp [mongo_get_connection_single, hf, hdc, hcr, hauth] at hc
          | ok u =>
            cases hping : mongo_connection_ping env m { c0 with hash := env.createHash server } with
            | error e =>
              simp [mongo_get_connection_single, hf, hdc, hcr, hauth, hping] at hc
            | ok c2 =>
              simp only [mongo_get_connection_single, hf, hdc, hcr, hauth, hping,
                Bool.false_eq_true, if_false, Option.some.injEq] at hc
              subst hc
              have hfr := ping_ok_fresh env m _ c2 hpi hping
              constructor
              · simp only [mongo_get_connection_single, hf, hdc, hcr, hauth, hping,
                  Bool.false_eq_true, if_false]
                exact registryHas_register m c2
              · intro _
                exact hfr.1
  | some cfound =>
    obtain ⟨it, hmem, hkey, hconn⟩ := find_by_hash_eq_some m _ cfound hf
    have hch : cfound.hash = env.createHash server := by
      rw [← hconn, ← hwf it hmem, hkey]
    cases hdc : flags.dontConnect with
    | true =>
      simp only [mongo_get_connection_single, hf, hdc, if_true, Option.some.injEq] at hc
      subst hc
      constructor
      · simp only [mongo_get_connection_single, hf, hdc, if_true]
        rw [registryHas_iff]
        refine List.mem_map.2 ⟨it, hmem, ?_⟩
        rw [hwf it hmem, hconn]
      · intro habs
        exact absurd habs (by decide)
    | false =>
      cases hping : mongo_connection_ping env m cfound with
      | error e =>
        simp [mongo_get_connection_single, hf, hdc, hping] at hc
      | ok c2 =>
        simp only [mongo_get_connection_single, hf, hdc, hping, Bool.false_eq_true,
          if_false, Option.some.injEq] at hc
        subst hc
        have hfr := ping_ok_fresh env m cfound c2 hpi hping
        constructor
        · simp only [mongo_get_connection_single, hf, hdc, hping, Bool.false_eq_true,
            if_false]
          rw [registryHas_iff]
          simp only [updateConnection_keys]
          refine List.mem_map.2 ⟨it, hmem, ?_⟩
          rw [hfr.2, hch, hkey]
        · intro _
          exact hfr.1

/-- Witness for C1 (amended): a fresh manager with ping interval 10, a
successful create at time 50 and a successful ping probe at time 100; the
returned connection carries last-ping time 100 and is registered. -/
theorem claim_C1_witness :
    ManagerWf ⟨[], 10⟩ ∧ 0 < (⟨[], 10⟩ : Manager).pingInterval ∧
      (registryHas
          (mongo_get_connection_single { env0 with create := fun _ => Except.ok ⟨"", 50⟩ }
            ⟨[], 10⟩ dLocal ⟨false, false⟩).manager
          (⟨"localhost:1", 100⟩ : Connection).hash = true ∧
        ((⟨false, false⟩ : Flags).dontConnect = false →
          ({ env0 with create := fun _ => Except.ok ⟨"", 50⟩ } : Env).now -
              (⟨"localhost:1", 100⟩ : Connection).lastPing <
            (⟨[], 10⟩ : Manager).pingInterval)) :=
  ⟨(by intro it hit; cases hit), (by decide),
    claim_C1_theorem { env0 with create := fun _ => Except.ok ⟨"", 50⟩ } ⟨[], 10⟩
      dLocal ⟨false, false⟩ (by intro it hit; cases hit) (by decide)
      ⟨"localhost:1", 100⟩ (by decide)⟩

/-! ## C2 -/

/-- Counterexample to C2: for a registry holding connections `a` then `b`
(registered in that order), `mongo_deinit` destroys `b` first — not forward
order. -/
theorem claim_C2_counterexample :
    mongo_deinit ⟨[⟨"a", ⟨"a", 0⟩⟩, ⟨"b", ⟨"b", 0⟩⟩], 1⟩ ≠
      ([⟨"a", ⟨"a", 0⟩⟩, ⟨"b", ⟨"b", 0⟩⟩] : List Item).map (fun it => it.connection) := by
  decide

/-- C2 (amended): `mongo_deinit` destroys every connection registered in the
manager, in reverse order of registration (the last registered connection is
destroyed first), because `destroy_manager_item` recurses over `next` before
destroying the current item's connection. -/
theorem claim_C2_theorem (m : Manager) :
    mongo_deinit m = (m.connections.map (fun it => it.connection)).reverse := by
  cases hm : m.connections with
  | nil => simp [mongo_deinit, hm]
  | cons a t => simp [mongo_deinit, hm, destroy_seq_reverse]

/-! ## C7 -/

/-- Environment for the C7 witness: create and getnonce and authenticate all
succeed; the ping probe succeeds at time 100. -/
def envC7 : Env :=
  { env0 with
    create := fun _ => Except.ok ⟨"", 50⟩
    getnonce := fun _ => Except.ok "nonce" }

/-- A server definition with full credentials. -/
def dAuth : ServerDef := ⟨"h", 1, some "d", some "u", some "p"⟩

/-- C7: in single-connection acquire with no registered connection for the
hash, `DONT_CONNECT` clear and credentials present, the collaborator calls
are create, then getnonce+authenticate, then ping, then register, in that
order; failure of any step yields the event trace cut at the failing step
followed by the destruction of the just-created connection (nothing is
destroyed when create itself fails), leaves the registry unchanged and
returns none with a textual error; when every step succeeds the connection
is registered and returned. -/
theorem claim_C7_theorem (env : Env) (m : Manager) (server : ServerDef) (flags : Flags)
    (r : SingleResult) (hr : r = mongo_get_connection_single env m server flags)
    (hdc : flags.dontConnect = false) (db user pwd : String)
    (hdb : server.db = some db) (hus : server.username = some user)
    (hpw : server.password = some pwd)
    (hf : mongo_manager_connection_find_by_hash m (env.createHash server) = none) :
    (r.con = none → r.manager = m ∧ r.err.isSome = true ∧
      (r.events = [Event.create] ∧ r.destroyed = [] ∨
        r.events = [Event.create, Event.getnonce, Event.destroy] ∧
          r.destroyed.length = 1 ∨
        r.events = [Event.create, Event.getnonce, Event.auth, Event.destroy] ∧
          r.destroyed.length = 1 ∨
        r.events = [Event.create, Event.getnonce, Event.auth, Event.ping, Event.destroy] ∧
          r.destroyed.length = 1)) ∧
    (∀ c, r.con = some c → r.manager = mongo_manager_connection_register m c ∧
      r.events = [Event.create, Event.getnonce, Event.auth, Event.ping, Event.register] ∧
      r.err = none) := by
  subst hr
  cases hcr : env.create server with
  | error e =>
    constructor
    · intro _
      refine ⟨?_, ?_, Or.inl ⟨?_, ?_⟩⟩ <;>
        simp [mongo_get_connection_single, hf, hdc, hcr]
    · intro c hc
      simp [mongo_get_connection_single, hf, hdc, hcr] at hc
  | ok c0 =>
    have hstep : authStepFor env server { c0 with hash := env.createHash server } =
        authenticate_connection env { c0 with hash := env.createHash server } db user pwd := by
      simp [authStepFor, hdb, hus, hpw]
    cases hng : env.getnonce (env.createHash server) with
    | error e =>
      have hauth : authenticate_connection env { c0 with hash := env.createHash server }
          db user pwd = (Except.error e, [Event.getnonce]) := by
        simp [authenticate_connection, hng]
      constructor
      · intro _
        refine ⟨?_, ?_, Or.inr (Or.inl ⟨?_, ?_⟩)⟩ <;>
          simp [mongo_get_connection_single, hf, hdc, hcr, hstep, hauth]
      · intro c hc
        simp [mongo_get_connection_single, hf, hdc, hcr, hstep, hauth] at hc
    | ok nonce =>
      cases hat : env.auth (env.createHash server) db user pwd nonce with
      | error e =>
        have hauth : authenticate_connection env { c0 with hash := env.createHash server }
            db user pwd = (Except.error e, [Event.getnonce, Event.auth]) := by
          simp [authenticate_connection, hng, hat]
        constructor
        · intro _
          refine ⟨?_, ?_, Or.inr (Or.inr (Or.inl ⟨?_, ?_⟩))⟩ <;>
            simp [mongo_get_connection_single, hf, hdc, hcr, hstep, hauth]
        · intro c hc
          simp [mongo_get_connection_single, hf, hdc, hcr, hstep, hauth] at hc
      | ok u =>
        have hauth : authenticate_connection env { c0 with hash := env.createHash server }
            db user pwd = (Except.ok (), [Event.getnonce, Event.auth]) := by
          simp [authenticate_connection, hng, hat]
        cases hping : mongo_connection_ping env m { c0 with hash := env.createHash server } with
        | error e =>
          constructor
          · intro _
            refine ⟨?_, ?_, Or.inr (Or.inr (Or.inr ⟨?_, ?_⟩))⟩ <;>
              simp [mongo_get_connection_single, hf, hdc, hcr, hstep, hauth, hping]
          · intro c hc
            simp [mongo_get_connection_single, hf, hdc, hcr, hstep, hauth, hping] at hc
        | ok c2 =>
          constructor
          · intro hc
            simp [mongo_get_connection_single, hf, hdc, hcr, hstep, hauth, hping] at hc
          · intro c hc
            simp only [mongo_get_connection_single, hf, hdc, hcr, hstep, hauth, hping,
              Bool.false_eq_true, if_false, Option.some.injEq] at hc
            subst hc
            refine ⟨?_, ?_, ?_⟩ <;>
              simp [mongo_get_connection_single, hf, hdc, hcr, hstep, hauth, hping]

/-- Witness for C7: with create, getnonce, authenticate and the ping probe
all succeeding, the acquire returns the freshly registered connection and the
trace is create, getnonce, auth, ping, register. -/
theorem claim_C7_witness :
    (mongo_get_connection_single envC7 ⟨[], 10⟩ dAuth ⟨false, false⟩).manager =
        mongo_manager_connection_register ⟨[], 10⟩ ⟨"h:1", 100⟩ ∧
      (mongo_get_connection_single envC7 ⟨[], 10⟩ dAuth ⟨false, false⟩).events =
        [Event.create, Event.getnonce, Event.auth, Event.ping, Event.register] ∧
      (mongo_get_connection_single envC7 ⟨[], 10⟩ dAuth ⟨false, false⟩).err = none :=
  (claim_C7_theorem envC7 ⟨[], 10⟩ dAuth ⟨false, false⟩ _ rfl rfl "d" "u" "p" rfl rfl rfl
      rfl).2 ⟨"h:1", 100⟩ (by decide)

/-! ## List-extension lemmas for the discovery loop -/

theorem processHosts_extends (env : Env) :
    ∀ (hosts : List String) (m : Manager) (s : List ServerDef) (seed : ServerDef),
      ∃ t, (processHosts env m s seed hosts).2 = s ++ t := by
  intro hosts
  induction hosts with
  | nil =>
    intro m s seed
    exact ⟨[], by simp [processHosts]⟩
  | cons hp rest ih =>
    intro m s seed
    cases hfd : mongo_manager_connection_find_by_hash m
        (env.createHash (inheritDef seed hp)) with
    | some c =>
      obtain ⟨t, ht⟩ := ih m s seed
      exact ⟨t, by simp [processHosts, hfd, ht]⟩
    | none =>
      cases hcon : (mongo_get_connection_single env m (inheritDef seed hp)
          ⟨true, false⟩).con with
      | some c =>
        obtain ⟨t, ht⟩ := ih (mongo_get_connection_single env m (inheritDef seed hp)
          ⟨true, false⟩).manager (s ++ [inheritDef seed hp]) seed
        exact ⟨inheritDef seed hp :: t, by simp [processHosts, hfd, hcon, ht]⟩
      | none =>
        obtain ⟨t, ht⟩ := ih (mongo_get_connection_single env m (inheritDef seed hp)
          ⟨true, false⟩).manager s seed
        exact ⟨t, by simp [processHosts, hfd, hcon, ht]⟩

theorem discoverBody_extends (env : Env) (m : Manager) (s : List ServerDef)
    (seed : ServerDef) (con : Connection) (res : IsmRes) :
    ∃ t, (discoverBody env m s seed con res).2 = s ++ t := by
  cases res with
  | error msg => exact ⟨[], by simp [discoverBody]⟩
  | skipped => exact ⟨[], by simp [discoverBody]⟩
  | ok hosts => simpa [discoverBody] using processHosts_extends env hosts m s seed
  | removeSeed hosts =>
    simpa [discoverBody] using
      processHosts_extends env hosts (mongo_manager_connection_deregister m con).1 s seed

theorem discoverLoop_extends (env : Env) :
    ∀ (fuel : Nat) (m : Manager) (s : List ServerDef) (i : Nat) (m' : Manager)
      (s' : List ServerDef), discoverLoop env fuel m s i = some (m', s') →
      ∃ t, s' = s ++ t := by
  intro fuel
  induction fuel with
  | zero =>
    intro m s i m' s' h
    simp [discoverLoop] at h
  | succ n ih =>
    intro m s i m' s' h
    unfold discoverLoop at h
    split at h
    · split at h
      · obtain ⟨t, ht⟩ := ih _ _ _ _ _ h
        exact ⟨t, ht⟩
      · obtain ⟨t, ht⟩ := ih _ _ _ _ _ h
        obtain ⟨t0, ht0⟩ := discoverBody_extends env _ _ _ _ _
        rw [ht0] at ht
        exact ⟨t0 ++ t, by rw [ht, List.append_assoc]⟩
    · cases h
      exact ⟨[], by simp⟩

/-! ## C8 -/

/-- C8: whenever a replica-set acquisition with `DONT_CONNECT` clear returns
(without fuel exhaustion or an out-of-bounds seed read), the read preference
handed to `mongo_find_candidate_servers` is a copy of the caller's
preference with its type forced to Primary when the WRITE flag is set, and
the caller's preference verbatim otherwise; the preference object stored in
the caller's server list is never modified (the embedding passes it by
value, mirroring `mongo_read_preference_copy` into a scratch copy). -/
theorem claim_C8_theorem (env : Env) (fuel : Nat) (m : Manager) (servers : Servers)
    (flags : Flags) (res : AcqResult)
    (hres : mongo_get_read_write_connection_replicaset env fuel m servers flags =
      Except.ok res)
    (hdc : flags.dontConnect = false) :
    res.prefUsed = some (if flags.write then
      { servers.readPref with type := RPType.primary } else servers.readPref) := by
  unfold mongo_get_read_write_connection_replicaset at hres
  rw [hdc] at hres
  simp only [Bool.and_false, Bool.false_eq_true, if_false] at hres
  split at hres
  · exact Except.noConfusion hres
  · split at hres
    · exact Except.noConfusion hres
    · split at hres
      · obtain rfl := Except.ok.inj hres
        rfl
      · split at hres
        · obtain rfl := Except.ok.inj hres
          rfl
        · obtain rfl := Except.ok.inj hres
          rfl

/-- Witness for C8: a WRITE acquisition on one unreachable seed with an
empty registry reaches selection with the preference type forced to
Primary. -/
theorem claim_C8_witness :
    (⟨⟨[], 10⟩, [dLocal], none, some "No candidate servers found", "",
        some none, some ⟨RPType.primary, []⟩⟩ : AcqResult).prefUsed =
      some (if (⟨true, false⟩ : Flags).write then
        { (⟨RPType.secondaryPreferred, []⟩ : ReadPreference) with type := RPType.primary }
        else ⟨RPType.secondaryPreferred, []⟩) :=
  claim_C8_theorem env0 2 ⟨[], 10⟩
    ⟨[dLocal], ConType.replset, none, ⟨RPType.secondaryPreferred, []⟩⟩ ⟨true, false⟩
    ⟨⟨[], 10⟩, [dLocal], none, some "No candidate servers found", "",
      some none, some ⟨RPType.primary, []⟩⟩ rfl rfl

/-! ## C10 -/

/-- C10: in both acquisition strategies the auth hash handed to
`mongo_find_candidate_servers` is computed by `authHashOf` from the first
seed (`servers->server[0]`) alone — for the replica-set strategy the head of
the post-discovery list, which discovery's appends never change — and
`authHashOf` yields no hash when the first seed lacks a username or a
password, regardless of the other seeds. -/
theorem claim_C10_theorem (env : Env) (fuel : Nat) (m : Manager) (servers : Servers)
    (flags : Flags) (res : AcqResult) (s0 : ServerDef) (rest : List ServerDef)
    (hs : servers.server = s0 :: rest) (hdc : flags.dontConnect = false) :
    (∀ d : ServerDef, d.username = none ∨ d.password = none →
      authHashOf env d = none) ∧
    (mongo_get_connection_multiple env m servers flags = Except.ok res →
      res.authHashUsed = some (authHashOf env s0)) ∧
    (mongo_get_read_write_connection_replicaset env fuel m servers flags =
        Except.ok res →
      res.authHashUsed = some (authHashOf env s0)) := by
  refine ⟨?_, ?_, ?_⟩
  · intro d hd
    cases hu : d.username with
    | none => simp [authHashOf, hu]
    | some u =>
      cases hp : d.password with
      | none => simp [authHashOf, hu, hp]
      | some p =>
        cases hd with
        | inl h => rw [h] at hu; cases hu
        | inr h => rw [h] at hp; cases hp
  · intro h
    unfold mongo_get_connection_multiple at h
    rw [hdc] at h
    simp only [Bool.and_false, Bool.false_eq_true, if_false, hs] at h
    split at h
    · obtain rfl := Except.ok.inj h
      rfl
    · split at h
      · obtain rfl := Except.ok.inj h
        rfl
      · obtain rfl := Except.ok.inj h
        rfl
  · intro h
    unfold mongo_get_read_write_connection_replicaset at h
    rw [hdc] at h
    simp only [Bool.and_false, Bool.false_eq_true, if_false] at h
    cases hd : mongo_discover_topology env fuel
        (seedLoopRS env flags m false servers.server).1 servers.server with
    | none =>
      rw [hd] at h
      exact Except.noConfusion h
    | some pair =>
      obtain ⟨m1, slist⟩ := pair
      obtain ⟨t, ht⟩ := discoverLoop_extends env fuel
        (seedLoopRS env flags m false servers.server).1 servers.server 0 m1 slist hd
      rw [hs] at ht
      subst ht
      rw [hd] at h
      simp only [List.cons_append] at h
      split at h
      · obtain rfl := Except.ok.inj h
        rfl
      · split at h
        · obtain rfl := Except.ok.inj h
          rfl
        · obtain rfl := Except.ok.inj h
          rfl

/-- Witness for C10: a standalone acquisition on one credential-free
unreachable seed records that selection was invoked with no auth hash. -/
theorem claim_C10_witness :
    (⟨⟨[], 10⟩, [dLocal], none,
        some "Failed to connect to: localhost:1: connection refused",
        "Failed to connect to: localhost:1: connection refused",
        some none, some ⟨RPType.nearest, []⟩⟩ : AcqResult).authHashUsed =
      some (authHashOf env0 dLocal) :=
  (claim_C10_theorem env0 1 ⟨[], 10⟩
      ⟨[dLocal], ConType.standalone, none, ⟨RPType.nearest, []⟩⟩ ⟨false, false⟩
      ⟨⟨[], 10⟩, [dLocal], none,
        some "Failed to connect to: localhost:1: connection refused",
        "Failed to connect to: localhost:1: connection refused",
        some none, some ⟨RPType.nearest, []⟩⟩ dLocal [] rfl rfl).2.1 rfl

/-! ## C5 -/

/-- C5: for Standalone and Multiple deployments, when candidate selection
yields nothing, the surfaced error is the composed per-seed failure text when
at least one per-seed failure was recorded, and exactly
"No candidate servers found" otherwise. -/
theorem claim_C5_theorem (env : Env) (fuel : Nat) (m : Manager) (servers : Servers)
    (flags : Flags) (res : AcqResult) (s0 : ServerDef) (rest : List ServerDef)
    (hs : servers.server = s0 :: rest)
    (hct : servers.conType = ConType.standalone ∨ servers.conType = ConType.multiple)
    (hdc : flags.dontConnect = false)
    (hfc : ∀ m' rp ah, env.findCandidates m' rp ah = none)
    (hres : mongo_get_read_write_connection env fuel m servers flags = Except.ok res) :
    res.con = none ∧
      res.err = some (if res.seedErrors.length ≠ 0 then res.seedErrors
        else "No candidate servers found") := by
  have hmul : mongo_get_read_write_connection env fuel m servers flags =
      mongo_get_connection_multiple env m servers flags := by
    rcases hct with hct | hct <;> simp [mongo_get_read_write_connection, hct]
  rw [hmul] at hres
  unfold mongo_get_connection_multiple at hres
  rw [hdc] at hres
  simp only [Bool.and_false, Bool.false_eq_true, if_false, hs] at hres
  rw [hfc] at hres
  obtain rfl := Except.ok.inj hres
  exact ⟨rfl, rfl⟩

/-- Witness for C5: one unreachable credential-free standalone seed; the
recorded seed failure is surfaced as the error message. -/
theorem claim_C5_witness :
    (⟨⟨[], 10⟩, [dLocal], none,
        some "Failed to connect to: localhost:1: connection refused",
        "Failed to connect to: localhost:1: connection refused",
        some none, some ⟨RPType.nearest, []⟩⟩ : AcqResult).con = none ∧
      (⟨⟨[], 10⟩, [dLocal], none,
        some "Failed to connect to: localhost:1: connection refused",
        "Failed to connect to: localhost:1: connection refused",
        some none, some ⟨RPType.nearest, []⟩⟩ : AcqResult).err =
        some (if (⟨⟨[], 10⟩, [dLocal], none,
            some "Failed to connect to: localhost:1: connection refused",
            "Failed to connect to: localhost:1: connection refused",
            some none, some ⟨RPType.nearest, []⟩⟩ : AcqResult).seedErrors.length ≠ 0
          then (⟨⟨[], 10⟩, [dLocal], none,
            some "Failed to connect to: localhost:1: connection refused",
            "Failed to connect to: localhost:1: connection refused",
            some none, some ⟨RPType.nearest, []⟩⟩ : AcqResult).seedErrors
          else "No candidate servers found") :=
  claim_C5_theorem env0 1 ⟨[], 10⟩
    ⟨[dLocal], ConType.standalone, none, ⟨RPType.nearest, []⟩⟩ ⟨false, false⟩
    ⟨⟨[], 10⟩, [dLocal], none,
      some "Failed to connect to: localhost:1: connection refused",
      "Failed to connect to: localhost:1: connection refused",
      some none, some ⟨RPType.nearest, []⟩⟩ dLocal [] rfl (Or.inl rfl) rfl
    (fun _ _ _ => rfl) rfl

/-! ## C6 -/

/-- The replica-set seed loop leaves an empty-registry manager unchanged when
every create fails and `DONT_CONNECT` is clear. -/
theorem seedLoopRS_all_fail (env : Env) (flags : Flags)
    (hcr : ∀ d, ∃ e, env.create d = Except.error e)
    (hdc : flags.dontConnect = false) :
    ∀ (seeds : List ServerDef) (m : Manager), m.connections = [] →
      seedLoopRS env flags m false seeds = (m, false) := by
  intro seeds
  induction seeds with
  | nil => intro m _; rfl
  | cons d rest ih =>
    intro m hreg
    have hfind : mongo_manager_connection_find_by_hash m (env.createHash d) = none := by
      unfold mongo_manager_connection_find_by_hash
      rw [hreg]
      rfl
    obtain ⟨e, he⟩ := hcr d
    have hsingle : mongo_get_connection_single env m d flags =
        { manager := m, con := none, err := some e, events := [Event.create],
          destroyed := [] } := by
      simp [mongo_get_connection_single, hfind, hdc, he]
    unfold seedLoopRS
    rw [hsingle]
    exact ih m hreg

/-- The discovery loop is the identity when the registry is empty: every
lookup fails, so every iteration is skipped. -/
theorem discoverLoop_empty_registry (env : Env) :
    ∀ (fuel : Nat) (m : Manager) (s : List ServerDef) (i : Nat),
      m.connections = [] → s.length - i < fuel →
      discoverLoop env fuel m s i = some (m, s) := by
  intro fuel
  induction fuel with
  | zero =>
    intro m s i _ hlt
    omega
  | succ n ih =>
    intro m s i hreg hlt
    unfold discoverLoop
    split
    · have hfind : mongo_manager_connection_find_by_hash m
          (env.createHash (s.get ⟨i, by assumption⟩)) = none := by
        unfold mongo_manager_connection_find_by_hash
        rw [hreg]
        rfl
      rw [hfind]
      exact ih m s (i + 1) hreg (by omega)
    · rfl

/-- C6: (a) for a replica-set acquisition with every seed unreachable
(`create` always fails), an empty registry, `DONT_CONNECT` clear and empty
candidate selection, the result is no connection with the error exactly
"No candidate servers found"; (b) in general, the replica-set strategy never
surfaces any error message other than "No candidate servers found" — the
per-seed connection failures are never composed into the surfaced error. -/
theorem claim_C6_theorem (env : Env) (fuel : Nat) (m : Manager) (servers : Servers)
    (flags : Flags) (s0 : ServerDef) (rest : List ServerDef)
    (hs : servers.server = s0 :: rest)
    (hdc : flags.dontConnect = false)
    (hreg : m.connections = [])
    (hcr : ∀ d, ∃ e, env.create d = Except.error e)
    (hfc : ∀ m' rp ah, env.findCandidates m' rp ah = none)
    (hfuel : servers.server.length < fuel) :
    (mongo_get_read_write_connection_replicaset env fuel m servers flags =
      Except.ok ⟨m, servers.server, none, some "No candidate servers found", "",
        some (authHashOf env s0),
        some (if flags.write then { servers.readPref with type := RPType.primary }
          else servers.readPref)⟩) ∧
    (∀ (env' : Env) (fuel' : Nat) (m' : Manager) (servers' : Servers) (flags' : Flags)
      (res' : AcqResult),
      mongo_get_read_write_connection_replicaset env' fuel' m' servers' flags' =
        Except.ok res' →
      res'.err = none ∨ res'.err = some "No candidate servers found") := by
  constructor
  · have hloop := seedLoopRS_all_fail env flags hcr hdc servers.server m hreg
    have hdisc2 : mongo_discover_topology env fuel m servers.server =
        some (m, servers.server) :=
      discoverLoop_empty_registry env fuel m servers.server 0 hreg (by omega)
    unfold mongo_get_read_write_connection_replicaset
    rw [hs] at hloop hdisc2 ⊢
    simp only [hloop, hdc, Bool.and_false, Bool.false_eq_true, if_false, hdisc2, hfc]
  · intro env' fuel' m' servers' flags' res' h
    unfold mongo_get_read_write_connection_replicaset at h
    simp only [] at h
    split at h
    · obtain rfl := Except.ok.inj h
      left
      rfl
    · split at h
      · exact Except.noConfusion h
      · split at h
        · exact Except.noConfusion h
        · split at h
          · obtain rfl := Except.ok.inj h
            right
            rfl
          · split at h
            · obtain rfl := Except.ok.inj h
              right
              rfl
            · obtain rfl := Except.ok.inj h
              left
              rfl

/-- Witness for C6: one unreachable replica-set seed, empty registry; the
surfaced error is exactly "No candidate servers found". -/
theorem claim_C6_witness :
    mongo_get_read_write_connection_replicaset env0 2 ⟨[], 10⟩
        ⟨[dLocal], ConType.replset, none, ⟨RPType.primary, []⟩⟩ ⟨false, false⟩ =
      Except.ok ⟨⟨[], 10⟩, [dLocal], none, some "No candidate servers found", "",
        some (authHashOf env0 dLocal),
        some (if (⟨false, false⟩ : Flags).write then
          { (⟨RPType.primary, []⟩ : ReadPreference) with type := RPType.primary }
          else ⟨RPType.primary, []⟩)⟩ :=
  (claim_C6_theorem env0 2 ⟨[], 10⟩
    ⟨[dLocal], ConType.replset, none, ⟨RPType.primary, []⟩⟩ ⟨false, false⟩ dLocal []
    rfl rfl rfl (fun d => ⟨"connection refused", rfl⟩) (fun _ _ _ => rfl)
    (by decide)).1

/-! ## C9 -/

/-- Counterexample to C9: a standalone acquisition with an empty seed list
and `DONT_CONNECT` clear does not return the "No candidate servers found"
error: it performs the out-of-bounds read of `servers->server[0]` at
manager.c:270 while computing the auth hash. -/
theorem claim_C9_counterexample :
    mongo_get_read_write_connection env0 1 ⟨[], 10⟩
        ⟨[], ConType.standalone, none, ⟨RPType.nearest, []⟩⟩ ⟨false, false⟩ =
      Except.error Fail.oob := rfl

/-- C9 (amended): with an empty seed list and `DONT_CONNECT` clear, every
deployment type reaches the unconditional read of `servers->server[0]`
(manager.c:201/270) before any candidate selection, an out-of-bounds access;
no "No candidate servers found" message is produced.  With `DONT_CONNECT`
set, the acquisition returns no connection and no error, without the
out-of-bounds access. -/
theorem claim_C9_theorem (env : Env) (fuel : Nat) (m : Manager) (servers : Servers)
    (flags : Flags) (hs : servers.server = []) (hct : servers.conType ≠ ConType.other)
    (hfuel : 0 < fuel) :
    (flags.dontConnect = false →
      mongo_get_read_write_connection env fuel m servers flags =
        Except.error Fail.oob) ∧
    (flags.dontConnect = true →
      mongo_get_read_write_connection env fuel m servers flags =
        Except.ok ⟨m, [], none, none, "", none, none⟩) := by
  obtain ⟨f, hf⟩ : ∃ f, fuel = f + 1 := ⟨fuel - 1, by omega⟩
  subst hf
  cases hty : servers.conType with
  | other => exact absurd hty hct
  | standalone =>
    constructor <;> intro hdc <;>
      simp [mongo_get_read_write_connection, hty, mongo_get_connection_multiple,
        seedLoopMulti, hs, hdc]
  | multiple =>
    constructor <;> intro hdc <;>
      simp [mongo_get_read_write_connection, hty, mongo_get_connection_multiple,
        seedLoopMulti, hs, hdc]
  | replset =>
    constructor <;> intro hdc <;>
      simp [mongo_get_read_write_connection, hty,
        mongo_get_read_write_connection_replicaset, seedLoopRS, hs, hdc,
        mongo_discover_topology, discoverLoop]

/-- Witness for C9 (amended): concrete empty replica-set seed list, with and
without `DONT_CONNECT`. -/
theorem claim_C9_witness :
    mongo_get_read_write_connection env0 1 ⟨[], 10⟩
        ⟨[], ConType.replset, none, ⟨RPType.nearest, []⟩⟩ ⟨false, true⟩ =
      Except.ok ⟨⟨[], 10⟩, [], none, none, "", none, none⟩ :=
  (claim_C9_theorem env0 1 ⟨[], 10⟩ ⟨[], ConType.replset, none, ⟨RPType.nearest, []⟩⟩
    ⟨false, true⟩ rfl (by decide) (by decide)).2 rfl

/-! ## C4 -/

/-- C4: the remove-seed result (code 3) of an ismaster probe first
deregisters the probed connection and then processes the reported host list
exactly as the ok result (code 1) does; that processing builds, for each
reported `host:port`, a definition inheriting db/username/password from the
seed, and appends it to the server list iff its hash is not yet registered
and a single acquire (with the WRITE flag) succeeds. -/
theorem claim_C4_theorem (env : Env) (m : Manager) (s : List ServerDef)
    (seed : ServerDef) (con : Connection) (hosts : List String) :
    discoverBody env m s seed con (IsmRes.removeSeed hosts) =
      discoverBody env (mongo_manager_connection_deregister m con).1 s seed con
        (IsmRes.ok hosts) ∧
    (∀ (m' : Manager) (s' : List ServerDef) (hp : String) (hs : List String),
      processHosts env m' s' seed (hp :: hs) =
        if (mongo_manager_connection_find_by_hash m'
            (env.createHash (inheritDef seed hp))).isSome then
          processHosts env m' s' seed hs
        else
          match (mongo_get_connection_single env m' (inheritDef seed hp)
              ⟨true, false⟩).con with
          | some _ =>
            processHosts env
              (mongo_get_connection_single env m' (inheritDef seed hp)
                ⟨true, false⟩).manager
              (s' ++ [inheritDef seed hp]) seed hs
          | none =>
            processHosts env
              (mongo_get_connection_single env m' (inheritDef seed hp)
                ⟨true, false⟩).manager
              s' seed hs) ∧
    (∀ hp : String, inheritDef seed hp =
      ⟨hostPart hp, portPart hp, seed.db, seed.username, seed.password⟩) := by
  refine ⟨rfl, ?_, fun hp => rfl⟩
  intro m' s' hp hs
  cases hfd : mongo_manager_connection_find_by_hash m'
      (env.createHash (inheritDef seed hp)) with
  | some c => simp [processHosts, hfd]
  | none =>
    cases hcon : (mongo_get_connection_single env m' (inheritDef seed hp)
        ⟨true, false⟩).con with
    | some c => simp [processHosts, hfd, hcon]
    | none => simp [processHosts, hfd, hcon]

/-! ## C3 : supporting lemmas -/

theorem bool_eq_false_iff (b : Bool) : b = false ↔ ¬(b = true) := by
  cases b <;> simp

theorem registryHas_false_iff_find_none (m : Manager) (h : String) :
    registryHas m h = false ↔ mongo_manager_connection_find_by_hash m h = none := by
  unfold registryHas mongo_manager_connection_find_by_hash
  cases hfind : m.connections.find? (fun it => decide (it.hash = h)) <;> simp

theorem registryHas_register_of (m : Manager) (c : Connection) (h : String)
    (hh : registryHas m h = true) :
    registryHas (mongo_manager_connection_register m c) h = true := by
  rw [registryHas_iff] at hh ⊢
  simp only [mongo_manager_connection_register, List.map_append, List.mem_append]
  exact Or.inl hh

theorem registryHas_register_iff (m : Manager) (c : Connection) (h : String) :
    registryHas (mongo_manager_connection_register m c) h = true ↔
      registryHas m h = true ∨ h = c.hash := by
  rw [registryHas_iff, registryHas_iff]
  simp only [mongo_manager_connection_register, List.map_append, List.map_cons,
    List.map_nil, List.mem_append, List.mem_singleton]

theorem ping_ok_hash (env : Env) (m : Manager) (c c2 : Connection)
    (h : mongo_connection_ping env m c = Except.ok c2) : c2.hash = c.hash := by
  unfold mongo_connection_ping at h
  split at h
  · cases h; rfl
  · cases hp : env.pingProbe c.hash with
    | ok u => rw [hp] at h; cases h; rfl
    | error e => rw [hp] at h; cases h

/-- Effect of a single acquire along discovery's host-expansion path (the
hash was just checked absent): failure leaves the manager unchanged; success
registers the returned connection, whose hash is the computed hash. -/
theorem single_create_path (env : Env) (m : Manager) (d : ServerDef)
    (hfd : mongo_manager_connection_find_by_hash m (env.createHash d) = none) :
    ((mongo_get_connection_single env m d ⟨true, false⟩).con = none →
      (mongo_get_connection_single env m d ⟨true, false⟩).manager = m) ∧
    (∀ c, (mongo_get_connection_single env m d ⟨true, false⟩).con = some c →
      (mongo_get_connection_single env m d ⟨true, false⟩).manager =
        mongo_manager_connection_register m c ∧ c.hash = env.createHash d) := by
  cases hcr : env.create d with
  | error e =>
    constructor
    · intro _
      simp [mongo_get_connection_single, hfd, hcr]
    · intro c hc
      simp [mongo_get_connection_single, hfd, hcr] at hc
  | ok c0 =>
    cases hauth : authStepFor env d { c0 with hash := env.createHash d } with
    | mk res evs =>
      cases res with
      | error e =>
        constructor
        · intro _
          simp [mongo_get_connection_single, hfd, hcr, hauth]
        · intro c hc
          simp [mongo_get_connection_single, hfd, hcr, hauth] at hc
      | ok u =>
        cases hping : mongo_connection_ping env m { c0 with hash := env.createHash d } with
        | error e =>
          constructor
          · intro _
            simp [mongo_get_connection_single, hfd, hcr, hauth, hping]
          · intro c hc
            simp [mongo_get_connection_single, hfd, hcr, hauth, hping] at hc
        | ok c2 =>
          constructor
          · intro hc
            simp [mongo_get_connection_single, hfd, hcr, hauth, hping] at hc
          · intro c hc
            simp only [mongo_get_connection_single, hfd, hcr, hauth, hping,
              Bool.false_eq_true, if_false, Option.some.injEq] at hc
            subst hc
            refine ⟨by simp [mongo_get_connection_single, hfd, hcr, hauth, hping], ?_⟩
            exact ping_ok_hash env m _ _ hping

/-- Whether a hash answers ismaster with an error: the only result class
that deregisters a probed connection once remove-seed is excluded. -/
def isErrHash (env : Env) (h : String) : Bool :=
  match env.ismaster h with
  | IsmRes.error _ => true
  | _ => false

/-- Weighted cost of one list position carrying this hash: an ok probe pays
for itself plus the at most `|U|` definitions it can append, each of cost at
most 2; an error probe pays for itself and for the deregistration it
performs; anything else pays for itself. -/
def hashCost (env : Env) (U : Finset String) (h : String) : Nat :=
  match env.ismaster h with
  | IsmRes.error _ => 2
  | IsmRes.ok _ => 1 + 2 * U.card
  | _ => 1

/-- Number of `U`-hashes of class `p` not yet registered. -/
def classFresh (U : Finset String) (p : String → Bool) (m : Manager) : Nat :=
  (U.filter (fun h => p h = true ∧ registryHas m h = false)).card

/-- Unregistered non-error `U`-hashes.  When remove-seed never occurs, only
error probes deregister, so a registered non-error hash never leaves the
registry and each such hash is appended at most once. -/
def nonErrFresh (env : Env) (U : Finset String) (m : Manager) : Nat :=
  classFresh U (fun h => !(isErrHash env h)) m

/-- Unregistered error `U`-hashes: bounds how many error-class definitions a
single ok probe can append. -/
def errFresh (env : Env) (U : Finset String) (m : Manager) : Nat :=
  classFresh U (isErrHash env) m

/-- Total position cost of a block of definitions. -/
def costSum (env : Env) (U : Finset String) (t : List ServerDef) : Nat :=
  (t.map (fun d => hashCost env U (env.createHash d))).sum

/-- Total position cost of the part of the list the loop has not yet
processed. -/
def pendingCost (env : Env) (U : Finset String) (s : List ServerDef) (i : Nat) : Nat :=
  ((s.drop i).map (fun d => hashCost env U (env.createHash d))).sum

/-- Registry potential: each fresh non-error `U`-hash is worth its future
position cost plus one (`2 + 2|U|` covers both ok and other classes), each
fresh error `U`-hash exactly its position cost 2. -/
def phi (env : Env) (U : Finset String) (m : Manager) : Nat :=
  (2 + 2 * U.card) * nonErrFresh env U m + 2 * errFresh env U m

theorem hashCost_pos (env : Env) (U : Finset String) (h : String) :
    1 ≤ hashCost env U h := by
  unfold hashCost
  split <;> omega

theorem errFresh_le (env : Env) (U : Finset String) (m : Manager) :
    errFresh env U m ≤ U.card := by
  unfold errFresh classFresh
  exact Finset.card_filter_le U _

theorem pendingCost_cons (env : Env) (U : Finset String) (s : List ServerDef)
    (i : Nat) (h : i < s.length) :
    pendingCost env U s i =
      hashCost env U (env.createHash (s.get ⟨i, h⟩)) + pendingCost env U s (i + 1) := by
  unfold pendingCost
  rw [List.drop_eq_getElem_cons h, List.map_cons, List.sum_cons]
  rfl

theorem pendingCost_append (env : Env) (U : Finset String) (s t : List ServerDef)
    (i : Nat) (h : i ≤ s.length) :
    pendingCost env U (s ++ t) i = pendingCost env U s i + costSum env U t := by
  unfold pendingCost costSum
  rw [List.drop_append_of_le_length h]
  simp

theorem classFresh_register (U : Finset String) (p : String → Bool) (m : Manager)
    (c : Connection) (hU : c.hash ∈ U) (hfresh : registryHas m c.hash = false)
    (hp : p c.hash = true) :
    classFresh U p (mongo_manager_connection_register m c) + 1 = classFresh U p m := by
  unfold classFresh
  have hset : U.filter (fun h => p h = true ∧
        registryHas (mongo_manager_connection_register m c) h = false) =
      (U.filter (fun h => p h = true ∧ registryHas m h = false)).erase c.hash := by
    ext x
    simp only [Finset.mem_filter, Finset.mem_erase, bool_eq_false_iff,
      registryHas_register_iff]
    constructor
    · rintro ⟨hxU, hpx, hnot⟩
      exact ⟨fun hxc => hnot (Or.inr hxc), hxU, hpx, fun ht => hnot (Or.inl ht)⟩
    · rintro ⟨hxc, hxU, hpx, hmx⟩
      exact ⟨hxU, hpx, fun hor => hor.elim hmx hxc⟩
  have hmem : c.hash ∈ U.filter (fun h => p h = true ∧ registryHas m h = false) :=
    Finset.mem_filter.2 ⟨hU, hp, hfresh⟩
  have hpos : 0 < (U.filter (fun h => p h = true ∧ registryHas m h = false)).card :=
    Finset.card_pos.2 ⟨c.hash, hmem⟩
  rw [hset, Finset.card_erase_of_mem hmem]
  omega

theorem classFresh_register_none (U : Finset String) (p : String → Bool) (m : Manager)
    (c : Connection) (hp : p c.hash = false) :
    classFresh U p (mongo_manager_connection_register m c) = classFresh U p m := by
  unfold classFresh
  congr 1
  ext x
  simp only [Finset.mem_filter, bool_eq_false_iff, registryHas_register_iff]
  constructor
  · rintro ⟨hxU, hpx, hnot⟩
    exact ⟨hxU, hpx, fun ht => hnot (Or.inl ht)⟩
  · rintro ⟨hxU, hpx, hmx⟩
    refine ⟨hxU, hpx, fun hor => ?_⟩
    rcases hor with ht | hxc
    · exact hmx ht
    · rw [hxc, hp] at hpx
      exact Bool.noConfusion hpx

theorem deregisterList_keys : ∀ (l : List Item) (k : String) (l' : List Item),
    deregisterList l k = some l' → ∀ h, h ≠ k →
    (h ∈ l'.map (fun it => it.hash) ↔ h ∈ l.map (fun it => it.hash)) := by
  intro l
  induction l with
  | nil => intro k l' hd; exact Option.noConfusion hd
  | cons it rest ih =>
    intro k l' hd h hne
    unfold deregisterList at hd
    split at hd
    · obtain rfl := Option.some.inj hd
      rename_i heq
      simp only [List.map_cons, List.mem_cons]
      constructor
      · intro hx
        exact Or.inr hx
      · intro hx
        rcases hx with hx | hx
        · rw [heq] at hx
          exact absurd hx hne
        · exact hx
    · cases hrec : deregisterList rest k with
      | none => rw [hrec] at hd; exact Option.noConfusion hd
      | some r' =>
        rw [hrec] at hd
        simp only [Option.map_some'] at hd
        obtain rfl := Option.some.inj hd
        simp only [List.map_cons, List.mem_cons]
        have hih := ih k r' hrec h hne
        constructor
        · rintro (hx | hx)
          · exact Or.inl hx
          · exact Or.inr (hih.1 hx)
        · rintro (hx | hx)
          · exact Or.inl hx
          · exact Or.inr (hih.2 hx)

theorem deregisterList_subset : ∀ (l : List Item) (k : String) (l' : List Item),
    deregisterList l k = some l' → ∀ it ∈ l', it ∈ l := by
  intro l
  induction l with
  | nil => intro k l' hd; exact Option.noConfusion hd
  | cons a rest ih =>
    intro k l' hd it hit
    unfold deregisterList at hd
    split at hd
    · obtain rfl := Option.some.inj hd
      exact List.mem_cons_of_mem a hit
    · cases hrec : deregisterList rest k with
      | none => rw [hrec] at hd; exact Option.noConfusion hd
      | some r' =>
        rw [hrec] at hd
        simp only [Option.map_some'] at hd
        obtain rfl := Option.some.inj hd
        rcases List.mem_cons.1 hit with h1 | h1
        · rw [h1]
          exact List.mem_cons_self a rest
        · exact List.mem_cons_of_mem a (ih k r' hrec it h1)

theorem registryHas_deregister_ne (m : Manager) (con : Connection) (h : String)
    (hne : h ≠ con.hash) :
    registryHas (mongo_manager_connection_deregister m con).1 h = registryHas m h := by
  unfold mongo_manager_connection_deregister
  cases hd : deregisterList m.connections con.hash with
  | none => rfl
  | some l' =>
    rw [Bool.eq_iff_iff, registryHas_iff, registryHas_iff]
    exact deregisterList_keys m.connections con.hash l' hd h hne

theorem classFresh_deregister_none (U : Finset String) (p : String → Bool)
    (m : Manager) (con : Connection) (hp : p con.hash = false) :
    classFresh U p (mongo_manager_connection_deregister m con).1 = classFresh U p m := by
  unfold classFresh
  congr 1
  ext x
  simp only [Finset.mem_filter]
  by_cases hx : x = con.hash
  · subst hx
    simp [hp]
  · rw [registryHas_deregister_ne m con x hx]

theorem wf_register (m : Manager) (c : Connection) (hwf : ManagerWf m) :
    ManagerWf (mongo_manager_connection_register m c) := by
  intro it hit
  rcases List.mem_append.1 hit with h1 | h1
  · exact hwf it h1
  · have h2 : it = ⟨c.hash, c⟩ := by simpa using h1
    rw [h2]

theorem wf_deregister (m : Manager) (con : Connection) (hwf : ManagerWf m) :
    ManagerWf (mongo_manager_connection_deregister m con).1 := by
  unfold mongo_manager_connection_deregister
  cases hd : deregisterList m.connections con.hash with
  | none => exact hwf
  | some l' =>
    intro it hit
    exact hwf it (deregisterList_subset m.connections con.hash l' hd it hit)

/-- Registering a fresh `U`-hash pays its own position cost out of the
potential. -/
theorem register_potential (env : Env) (U : Finset String) (m : Manager)
    (c : Connection) (hU : c.hash ∈ U) (hfresh : registryHas m c.hash = false) :
    hashCost env U c.hash + phi env U (mongo_manager_connection_register m c) ≤
      phi env U m := by
  unfold phi nonErrFresh errFresh
  cases hcls : isErrHash env c.hash with
  | true =>
    have h1 := classFresh_register U (isErrHash env) m c hU hfresh hcls
    have h2 := classFresh_register_none U (fun h => !(isErrHash env h)) m c
      (by simp [hcls])
    have h3 : hashCost env U c.hash = 2 := by
      unfold isErrHash at hcls
      unfold hashCost
      split at hcls
      · rename_i heq
        rw [heq]
      · exact Bool.noConfusion hcls
    rw [h2, h3]
    generalize (2 + 2 * U.card) *
      classFresh U (fun h => !(isErrHash env h)) m = P
    omega
  | false =>
    have h1 := classFresh_register U (fun h => !(isErrHash env h)) m c hU hfresh
      (by simp [hcls])
    have h2 := classFresh_register_none U (isErrHash env) m c hcls
    have h3 : hashCost env U c.hash ≤ 1 + 2 * U.card := by
      unfold isErrHash at hcls
      cases him : env.ismaster c.hash with
      | error msg =>
        rw [him] at hcls
        exact Bool.noConfusion hcls
      | ok hosts =>
        simp only [hashCost, him]
        omega
      | skipped =>
        simp only [hashCost, him]
        omega
      | removeSeed hosts =>
        simp only [hashCost, him]
        omega
    rw [h2, ← h1]
    have h4 : (2 + 2 * U.card) *
        (classFresh U (fun h => !(isErrHash env h))
          (mongo_manager_connection_register m c) + 1) =
        (2 + 2 * U.card) * classFresh U (fun h => !(isErrHash env h))
          (mongo_manager_connection_register m c) + (2 + 2 * U.card) := by
      ring
    rw [h4]
    generalize (2 + 2 * U.card) *
      classFresh U (fun h => !(isErrHash env h))
        (mongo_manager_connection_register m c) = P
    omega

/-- Effect of one host-expansion pass: the list grows by a block whose cost
is paid from the registry potential, and well-formedness is preserved. -/
theorem processHosts_cost (env : Env) (U : Finset String) (seed : ServerDef) :
    ∀ (hosts : List String),
      (∀ hp ∈ hosts, env.createHash (inheritDef seed hp) ∈ U) →
      ∀ (m : Manager) (s : List ServerDef),
        ∃ t, (processHosts env m s seed hosts).2 = s ++ t ∧
          costSum env U t + phi env U (processHosts env m s seed hosts).1 ≤
            phi env U m ∧
          (ManagerWf m → ManagerWf (processHosts env m s seed hosts).1) := by
  intro hosts
  induction hosts with
  | nil =>
    intro _ m s
    exact ⟨[], by simp [processHosts], by simp [processHosts, costSum],
      fun hwf => by simpa [processHosts] using hwf⟩
  | cons hp rest ih =>
    intro hmemU m s
    have hpU : env.createHash (inheritDef seed hp) ∈ U := hmemU hp (by simp)
    have hrest : ∀ x ∈ rest, env.createHash (inheritDef seed x) ∈ U :=
      fun x hx => hmemU x (by simp [hx])
    cases hfd : mongo_manager_connection_find_by_hash m
        (env.createHash (inheritDef seed hp)) with
    | some c =>
      have heq : processHosts env m s seed (hp :: rest) =
          processHosts env m s seed rest := by
        simp [processHosts, hfd]
      rw [heq]
      exact ih hrest m s
    | none =>
      have hsingle := single_create_path env m (inheritDef seed hp) hfd
      cases hcon : (mongo_get_connection_single env m (inheritDef seed hp)
          ⟨true, false⟩).con with
      | none =>
        have hm := hsingle.1 hcon
        have heq : processHosts env m s seed (hp :: rest) =
            processHosts env m s seed rest := by
          simp [processHosts, hfd, hcon, hm]
        rw [heq]
        exact ih hrest m s
      | some c =>
        obtain ⟨hm, hch⟩ := hsingle.2 c hcon
        have heq : processHosts env m s seed (hp :: rest) =
            processHosts env (mongo_manager_connection_register m c)
              (s ++ [inheritDef seed hp]) seed rest := by
          simp [processHosts, hfd, hcon, hm]
        rw [heq]
        have hfreshb : registryHas m c.hash = false := by
          rw [hch, registryHas_false_iff_find_none]
          exact hfd
        have hUc : c.hash ∈ U := by rw [hch]; exact hpU
        have hpot := register_potential env U m c hUc hfreshb
        obtain ⟨t', ht', hcost', hwf'⟩ :=
          ih hrest (mongo_manager_connection_register m c) (s ++ [inheritDef seed hp])
        refine ⟨inheritDef seed hp :: t', ?_, ?_, ?_⟩
        · rw [ht', List.append_assoc]
          rfl
        · have hcs : costSum env U (inheritDef seed hp :: t') =
              hashCost env U (env.createHash (inheritDef seed hp)) +
                costSum env U t' := by
            simp [costSum]
          rw [hcs, ← hch]
          omega
        · intro hwf
          exact hwf' (wf_register m c hwf)

/-- C3 (amended): the loop bound is re-read each iteration, so appended
definitions are probed by the same loop; a definition is appended only when
its hash is checked absent from the registry and a WRITE-flag single acquire
succeeds, which registers it (second conjunct, the loop-body equation).
Termination requires only that no ismaster probe returns remove-seed —
error, ok and skipped responses may all occur: starting from a well-formed
manager, if every reachable inherited hash lies in the finite set `U`, the
loop finishes within fuel `(2+2|U|)·(fresh non-error U-hashes) + (weighted
cost of the unprocessed positions)`, and the final list extends the initial
one.  With remove-seed responses the loop need not terminate (see the
counterexample): they deregister the probed hash and append in the same
iteration. -/
theorem claim_C3_theorem (env : Env) (U : Finset String)
    (hism : ∀ (h : String) (hosts : List String),
      env.ismaster h ≠ IsmRes.removeSeed hosts)
    (hU : ∀ (d : ServerDef) (hp : String) (hosts : List String),
      env.ismaster (env.createHash d) = IsmRes.ok hosts → hp ∈ hosts →
      env.createHash (inheritDef d hp) ∈ U) :
    (∀ (fuel : Nat) (m : Manager) (s : List ServerDef) (i : Nat), ManagerWf m →
      i ≤ s.length →
      (2 + 2 * U.card) * nonErrFresh env U m + pendingCost env U s i < fuel →
      ∃ m' s', discoverLoop env fuel m s i = some (m', s') ∧
        (∃ t, s' = s ++ t) ∧ ManagerWf m') ∧
    (∀ (m₀ : Manager) (s₀ : List ServerDef) (seed : ServerDef) (hp : String)
      (hs : List String),
      processHosts env m₀ s₀ seed (hp :: hs) =
        if (mongo_manager_connection_find_by_hash m₀
            (env.createHash (inheritDef seed hp))).isSome then
          processHosts env m₀ s₀ seed hs
        else
          match (mongo_get_connection_single env m₀ (inheritDef seed hp)
              ⟨true, false⟩).con with
          | some _ =>
            processHosts env
              (mongo_get_connection_single env m₀ (inheritDef seed hp)
                ⟨true, false⟩).manager
              (s₀ ++ [inheritDef seed hp]) seed hs
          | none =>
            processHosts env
              (mongo_get_connection_single env m₀ (inheritDef seed hp)
                ⟨true, false⟩).manager
              s₀ seed hs) := by
  constructor
  · intro fuel
    induction fuel with
    | zero =>
      intro m s i _ _ hfuel
      omega
    | succ n ih =>
      intro m s i hwf hi hfuel
      by_cases hlt : i < s.length
      · have hpc := pendingCost_cons env U s i hlt
        cases hfd : mongo_manager_connection_find_by_hash m
            (env.createHash (s.get ⟨i, hlt⟩)) with
        | none =>
          have hcpos := hashCost_pos env U (env.createHash (s.get ⟨i, hlt⟩))
          obtain ⟨m', s', hloop, hext, hwf'⟩ := ih m s (i + 1) hwf (by omega) (by omega)
          refine ⟨m', s', ?_, hext, hwf'⟩
          unfold discoverLoop
          rw [dif_pos hlt, hfd]
          exact hloop
        | some con =>
          obtain ⟨it, hmem, hkey, hconn⟩ := find_by_hash_eq_some m _ con hfd
          have hch : con.hash = env.createHash (s.get ⟨i, hlt⟩) := by
            rw [← hconn, ← hwf it hmem, hkey]
          cases hcls : env.ismaster (env.createHash (s.get ⟨i, hlt⟩)) with
          | removeSeed hosts => exact absurd hcls (hism _ hosts)
          | skipped =>
            have hcost : hashCost env U (env.createHash (s.get ⟨i, hlt⟩)) = 1 := by
              simp only [hashCost, hcls]
            obtain ⟨m', s', hloop, hext, hwf'⟩ :=
              ih m s (i + 1) hwf (by omega) (by omega)
            refine ⟨m', s', ?_, hext, hwf'⟩
            unfold discoverLoop
            rw [dif_pos hlt, hfd, hcls]
            exact hloop
          | error msg =>
            have hcost : hashCost env U (env.createHash (s.get ⟨i, hlt⟩)) = 2 := by
              simp only [hashCost, hcls]
            have hA : nonErrFresh env U
                (mongo_manager_connection_deregister m con).1 = nonErrFresh env U m := by
              unfold nonErrFresh
              apply classFresh_deregister_none
              rw [hch]
              simp only [isErrHash, hcls, Bool.not_true]
            obtain ⟨m', s', hloop, hext, hwf'⟩ :=
              ih (mongo_manager_connection_deregister m con).1 s (i + 1)
                (wf_deregister m con hwf) (by omega) (by rw [hA]; omega)
            refine ⟨m', s', ?_, hext, hwf'⟩
            unfold discoverLoop
            rw [dif_pos hlt, hfd, hcls]
            exact hloop
          | ok hosts =>
            have hcost : hashCost env U (env.createHash (s.get ⟨i, hlt⟩)) =
                1 + 2 * U.card := by
              simp only [hashCost, hcls]
            have hUs : ∀ hp ∈ hosts,
                env.createHash (inheritDef (s.get ⟨i, hlt⟩) hp) ∈ U :=
              fun hp hmem2 => hU _ hp hosts hcls hmem2
            obtain ⟨t0, ht0, hcost0, hwfP⟩ :=
              processHosts_cost env U (s.get ⟨i, hlt⟩) hosts hUs m s
            have hE := errFresh_le env U m
            have hlen2 : (processHosts env m s (s.get ⟨i, hlt⟩) hosts).2.length =
                s.length + t0.length := by
              rw [ht0]
              simp
            have hpend2 : pendingCost env U
                (processHosts env m s (s.get ⟨i, hlt⟩) hosts).2 (i + 1) =
                pendingCost env U s (i + 1) + costSum env U t0 := by
              rw [ht0]
              exact pendingCost_append env U s t0 (i + 1) (by omega)
            have hphi := hcost0
            unfold phi at hphi
            obtain ⟨m', s', hloop, ⟨t1, ht1⟩, hwf'⟩ :=
              ih (processHosts env m s (s.get ⟨i, hlt⟩) hosts).1
                (processHosts env m s (s.get ⟨i, hlt⟩) hosts).2 (i + 1) (hwfP hwf)
                (by omega) (by rw [hpend2]; omega)
            refine ⟨m', s', ?_, ⟨t0 ++ t1, ?_⟩, hwf'⟩
            · unfold discoverLoop
              rw [dif_pos hlt, hfd, hcls]
              exact hloop
            · rw [ht1, ht0, List.append_assoc]
      · refine ⟨m, s, ?_, ⟨[], by simp⟩, hwf⟩
        unfold discoverLoop
        rw [dif_neg hlt]
  · intro m₀ s₀ seed hp hs
    cases hfd : mongo_manager_connection_find_by_hash m₀
        (env.createHash (inheritDef seed hp)) with
    | some c => simp [processHosts, hfd]
    | none =>
      cases hcon : (mongo_get_connection_single env m₀ (inheritDef seed hp)
          ⟨true, false⟩).con with
      | some c => simp [processHosts, hfd, hcon]
      | none => simp [processHosts, hfd, hcon]

/-- Witness for C3 (amended): an environment whose ismaster probes are all
skipped (hence never remove-seed) terminates on one seed with fuel 2. -/
theorem claim_C3_witness :
    (discoverLoop env0 2 ⟨[], 10⟩ [dLocal] 0).isSome = true := by
  obtain ⟨m', s', hloop, -, -⟩ :=
    (claim_C3_theorem env0 ∅ (fun h hosts hh => IsmRes.noConfusion hh)
      (fun d hp hosts hh => IsmRes.noConfusion hh)).1 2 ⟨[], 10⟩ [dLocal] 0
      (by intro it hit; cases hit) (by decide) (by decide)
  rw [hloop]
  rfl

/-! ## C3 : non-termination counterexample -/

/-- Seed definition `a:1`. -/
def dA3 : ServerDef := ⟨"a", 1, none, none, none⟩

/-- Discovered definition `b:1`. -/
def dB3 : ServerDef := ⟨"b", 1, none, none, none⟩

/-- Registered connection for `a:1`. -/
def conA3 : Connection := ⟨"a:1", 100⟩

/-- Registered connection for `b:1`. -/
def conB3 : Connection := ⟨"b:1", 100⟩

/-- Manager whose registry holds only the `a:1` connection. -/
def mA3 : Manager := ⟨[⟨"a:1", conA3⟩], 1000⟩

/-- Manager whose registry holds only the `b:1` connection. -/
def mB3 : Manager := ⟨[⟨"b:1", conB3⟩], 1000⟩

/-- An environment in which hosts `a:1` and `b:1` each answer ismaster with
the remove-seed result naming the other host only — consistent with the
remove-seed contract (the contacted host is absent from the reported list)
and with a finite reachable hash space of two hashes.  Creates always
succeed and pings are fresh. -/
def env3 : Env :=
  { env0 with
    create := fun _ => Except.ok ⟨"", 100⟩
    ismaster := fun h =>
      if h = "a:1" then IsmRes.removeSeed ["b:1"]
      else if h = "b:1" then IsmRes.removeSeed ["a:1"] else IsmRes.skipped }

/-- Each iteration of the discovery loop in `env3` deregisters the probed
host and re-appends the other one, so the loop state cycles with period two
while the list grows; no fuel completes it. -/
theorem discover_cycle : ∀ (fuel : Nat) (s0 : List ServerDef),
    discoverLoop env3 fuel mA3 (s0 ++ [dA3]) s0.length = none ∧
    discoverLoop env3 fuel mB3 (s0 ++ [dB3]) s0.length = none := by
  intro fuel
  induction fuel with
  | zero => intro s0; exact ⟨rfl, rfl⟩
  | succ n ih =>
    intro s0
    constructor
    · have hlt : s0.length < (s0 ++ [dA3]).length := by simp
      have hget : (s0 ++ [dA3]).get ⟨s0.length, hlt⟩ = dA3 := by simp
      unfold discoverLoop
      rw [dif_pos hlt, hget]
      have h2 := (ih (s0 ++ [dA3])).2
      have hlen2 : (s0 ++ [dA3]).length = s0.length + 1 := by simp
      rw [hlen2] at h2
      exact h2
    · have hlt : s0.length < (s0 ++ [dB3]).length := by simp
      have hget : (s0 ++ [dB3]).get ⟨s0.length, hlt⟩ = dB3 := by simp
      unfold discoverLoop
      rw [dif_pos hlt, hget]
      have h2 := (ih (s0 ++ [dB3])).1
      have hlen2 : (s0 ++ [dB3]).length = s0.length + 1 := by simp
      rw [hlen2] at h2
      exact h2

/-- Counterexample to C3's termination conclusion: starting from the single
registered seed `a:1` in `env3` — whose reachable hash space is the finite
set containing the two hashes — the discovery loop never terminates: each
remove-seed response deregisters the probed hash, making it unknown again,
and the host list grows forever. -/
theorem claim_C3_counterexample : ¬ discoverTerminates env3 mA3 [dA3] := by
  intro hterm
  obtain ⟨fuel, r, hr⟩ := hterm
  have h := (discover_cycle fuel []).1
  simp only [List.nil_append, List.length_nil] at h
  rw [h] at hr
  exact Option.noConfusion hr

end MconManager

